import Mathlib

/-!
Verification of the contact-book program (`main.py`): a shallow embedding of
its data model (field validators, records, the address book), the
upcoming-birthdays query, phone editing, the command loop and the
persistence pair, together with theorems settling the specification's
claims about them.

Modelling conventions:
* Python exceptions become `Option`/`Except` results (the error string is the
  exception message); code that mutates state returns the post-state.
* Python `datetime.date` values become the `Date` structure below, with the
  proleptic-Gregorian ordinal arithmetic that `datetime` documents.
* Strings are Lean `String`s (Unicode code points, as in Python).
-/

/-- Models Python's `str.isdigit` on one character.  Python classifies a
character as a digit when its Unicode `Numeric_Type` is `Digit` or `Decimal`;
this covers the ASCII digits but also, e.g., the Latin-1 superscripts
U+00B9/U+00B2/U+00B3 and the Arabic-Indic digits U+0660-U+0669.  We include
the ASCII digits plus those documented non-ASCII digit characters; Python's
full class is larger still, so this model under-approximates it outside the
characters listed here. -/
def pyIsDigit (c : Char) : Bool :=
  c.isDigit || c = '¹' || c = '²' || c = '³' ||
    (0x660 ≤ c.toNat && c.toNat ≤ 0x669)

/-- Models Python's `str.isdigit` on a whole string: non-empty and every
character is a digit. -/
def pyIsdigitStr (s : String) : Bool :=
  !s.data.isEmpty && s.data.all pyIsDigit

/-- Embeds the guard of `Phone.__init__`:
`if not value.isdigit() or len(value) != 10: raise ValueError(...)`. -/
def phoneValid (value : String) : Bool :=
  pyIsdigitStr value && value.length == 10

/-- Embeds the `Phone` field: a validated value wrapper. -/
structure Phone where
  value : String
deriving DecidableEq

/-- Embeds `Phone(value)`: `none` models the raised `ValueError`
("Phone must contain exactly 10 digits"). -/
def Phone.mkValidated (value : String) : Option Phone :=
  if phoneValid value then some ⟨value⟩ else none

/-! ## Calendar model (Python `datetime.date`) -/

/-- A calendar date, as Python's `datetime.date` triple. -/
structure Date where
  year : Nat
  month : Nat
  day : Nat
deriving DecidableEq

/-- Gregorian leap-year rule, as used by `datetime`. -/
def isLeap (y : Nat) : Bool :=
  (y % 4 == 0 && y % 100 != 0) || y % 400 == 0

/-- Length of month `m` in year `y` (Python `calendar`/`datetime` rule). -/
def daysInMonth (y m : Nat) : Nat :=
  if m = 2 then (if isLeap y then 29 else 28)
  else if m = 4 ∨ m = 6 ∨ m = 9 ∨ m = 11 then 30
  else 31

/-- The validity check `datetime.date(y, m, d)` performs on construction
(we omit the upper year bound 9999, irrelevant to the program's inputs). -/
def dateValid (d : Date) : Bool :=
  1 ≤ d.year && 1 ≤ d.month && d.month ≤ 12 && 1 ≤ d.day &&
    d.day ≤ daysInMonth d.year d.month

/-- Days in all years before year `y` (proleptic Gregorian), as in
`datetime`'s `_days_before_year`. -/
def daysBeforeYear (y : Nat) : Nat :=
  365 * (y - 1) + (y - 1) / 4 - (y - 1) / 100 + (y - 1) / 400

/-- Days in year `y` before month `m`, as in `datetime`'s
`_days_before_month`. -/
def daysBeforeMonth (y m : Nat) : Nat :=
  ((List.range (m - 1)).map (fun i => daysInMonth y (i + 1))).sum

/-- `date.toordinal()`: day count with 0001-01-01 as ordinal 1. -/
def toOrdinal (d : Date) : Nat :=
  daysBeforeYear d.year + daysBeforeMonth d.year d.month + d.day

/-- `date.weekday()`: Monday = 0 ... Sunday = 6 (0001-01-01 is a Monday). -/
def weekday (d : Date) : Nat :=
  (toOrdinal d + 6) % 7

/-- `(a - b).days` for two dates (`timedelta` subtraction). -/
def diffDays (a b : Date) : Int :=
  (toOrdinal a : Int) - (toOrdinal b : Int)

/-- Python `date` comparison `a < b` (lexicographic on year, month, day). -/
def dateLt (a b : Date) : Bool :=
  decide (a.year < b.year ∨ (a.year = b.year ∧
    (a.month < b.month ∨ (a.month = b.month ∧ a.day < b.day))))

/-- `date.replace(year := y)`: keeps month and day, re-validating the result;
`none` models the `ValueError` raised when the day does not exist in the new
year's month (29 February in a non-leap year). -/
def replaceYear (d : Date) (y : Nat) : Option Date :=
  if d.day ≤ daysInMonth y d.month then some ⟨y, d.month, d.day⟩ else none

/-- The successor date (adding `timedelta(days=1)` to a valid date). -/
def nextDay (d : Date) : Date :=
  if d.day < daysInMonth d.year d.month then ⟨d.year, d.month, d.day + 1⟩
  else if d.month < 12 then ⟨d.year, d.month + 1, 1⟩
  else ⟨d.year + 1, 1, 1⟩

/-- Adding `timedelta(days=n)` to a valid date. -/
def addDays (d : Date) : Nat → Date
  | 0 => d
  | n + 1 => addDays (nextDay d) n

/-- Left-pads the decimal rendering of `n` with zeros to width `w`. -/
def padNum (w n : Nat) : String :=
  String.mk (List.replicate (w - (toString n).length) '0') ++ toString n

/-- `date.strftime("%d.%m.%Y")`. -/
def formatDate (d : Date) : String :=
  padNum 2 d.day ++ "." ++ padNum 2 d.month ++ "." ++ padNum 4 d.year

/-! ## Birthday parsing (`datetime.strptime(value, "%d.%m.%Y")`) -/

/-- Numeric value of a run of ASCII digits (how `strptime` reads a matched
group, `int(...)`). -/
def digitsVal (cs : List Char) : Nat :=
  cs.foldl (fun a c => a * 10 + (c.toNat - 48)) 0

/-- Splits a character list at every `'.'` (the literal separators of the
format `"%d.%m.%Y"`); always returns at least one (possibly empty) part. -/
def splitDots : List Char → List (List Char)
  | [] => [[]]
  | c :: cs =>
    if c = '.' then [] :: splitDots cs
    else
      match splitDots cs with
      | [] => [[c]]
      | p :: ps => (c :: p) :: ps

/-- Joins parts with `'.'`; inverse of `splitDots`. -/
def joinDots : List (List Char) → List Char
  | [] => []
  | [p] => p
  | p :: ps => p ++ '.' :: joinDots ps

/-- The `%d` directive of `strptime`: the regex
`3[01]|[12]\d|0[1-9]|[1-9]` — one or two ASCII digits denoting 1..31
(so a single digit need not be zero-padded).  We model the digit class over
ASCII; Python's regex `\d` additionally matches other Unicode decimal
digits. -/
def dayToken (cs : List Char) : Prop :=
  cs.all Char.isDigit = true ∧ 1 ≤ cs.length ∧ cs.length ≤ 2 ∧
    1 ≤ digitsVal cs ∧ digitsVal cs ≤ 31

/-- The `%m` directive of `strptime`: the regex `1[0-2]|0[1-9]|[1-9]` —
one or two ASCII digits denoting 1..12. -/
def monthToken (cs : List Char) : Prop :=
  cs.all Char.isDigit = true ∧ 1 ≤ cs.length ∧ cs.length ≤ 2 ∧
    1 ≤ digitsVal cs ∧ digitsVal cs ≤ 12

/-- The `%Y` directive of `strptime`: the regex `\d\d\d\d` — exactly four
digits. -/
def yearToken (cs : List Char) : Prop :=
  cs.all Char.isDigit = true ∧ cs.length = 4

instance (cs : List Char) : Decidable (dayToken cs) := by
  unfold dayToken; infer_instance

instance (cs : List Char) : Decidable (monthToken cs) := by
  unfold monthToken; infer_instance

instance (cs : List Char) : Decidable (yearToken cs) := by
  unfold yearToken; infer_instance

/-- Embeds `datetime.strptime(value, "%d.%m.%Y").date()`: the format's
regex must match the whole string (exactly two literal dots, each component
matching its directive's pattern), and the matched numbers must form a real
calendar date (the `datetime` constructor check).  `none` models the raised
`ValueError`. -/
def parseBirthday (value : String) : Option Date :=
  match splitDots value.data with
  | [ds, ms, ys] =>
    if dayToken ds ∧ monthToken ms ∧ yearToken ys then
      if dateValid ⟨digitsVal ys, digitsVal ms, digitsVal ds⟩ then
        some ⟨digitsVal ys, digitsVal ms, digitsVal ds⟩
      else none
    else none
  | _ => none

/-- Embeds the guard of `Birthday.__init__` (construction succeeds iff
`strptime` accepts the value). -/
def birthdayValid (value : String) : Bool :=
  (parseBirthday value).isSome

/-- Embeds the `Birthday` field: stores the original string. -/
structure Birthday where
  value : String
deriving DecidableEq

/-- Embeds `Birthday(value)`: `none` models the raised `ValueError`
("Invalid date format. Use DD.MM.YYYY"). -/
def Birthday.mkValidated (value : String) : Option Birthday :=
  if birthdayValid value then some ⟨value⟩ else none

/-- Embeds `Birthday.date_obj()` (re-parses the stored string; always
succeeds on a validated birthday). -/
def dateObj (b : Birthday) : Option Date :=
  parseBirthday b.value

/-- The exact-`DD.MM.YYYY` format as claim C5 reads it: two-digit day,
two-digit month, four-digit year, dot separators, denoting a real calendar
date.  Stated for comparison with the source-derived `birthdayValid`. -/
def specExactFormat (s : String) : Bool :=
  match splitDots s.data with
  | [ds, ms, ys] =>
    ds.length == 2 && ms.length == 2 && ys.length == 4 &&
      ds.all Char.isDigit && ms.all Char.isDigit && ys.all Char.isDigit &&
      dateValid ⟨digitsVal ys, digitsVal ms, digitsVal ds⟩
  | _ => false

/-! ## Records and the address book -/

/-- Embeds `Record`: a `Name` value (validated to be non-empty at
construction), an ordered phone list and an optional birthday. -/
structure Record where
  name : String
  phones : List Phone
  birthday : Option Birthday
deriving DecidableEq

/-- Embeds `Record(name)`: `none` models the `ValueError`
("Name cannot be empty") raised by `Name.__init__` on an empty value. -/
def Record.mkValidated (name : String) : Option Record :=
  if name = "" then none else some ⟨name, [], none⟩

/-- The address book is a `dict` keyed by record name; we model its values
in insertion order.  `AddressBook()` is the empty book. -/
def AddressBook := List Record

/-- Embeds `AddressBook.add_record`: `self.data[record.name.value] = record`
(dict assignment: overwrite in place if the key exists, else append). -/
def add_record : List Record → Record → List Record
  | [], r => [r]
  | q :: qs, r => if q.name == r.name then r :: qs else q :: add_record qs r

/-- Embeds `AddressBook.find`: `self.data.get(name)` (lookup by key
equality on the record names). -/
def find : List Record → String → Option Record
  | [], _ => none
  | r :: rs, name => if r.name == name then some r else find rs name

/-- In-place mutation of the record stored under `name` (the Python
handlers mutate the object `book.find(name)` returned, which is the dict's
value itself). -/
def updateRecord : List Record → String → (Record → Record) → List Record
  | [], _, _ => []
  | r :: rs, name, f =>
    if r.name == name then f r :: rs else r :: updateRecord rs name f

/-- Embeds `Record.__str__`. -/
def recordStr (r : Record) : String :=
  "Contact name: " ++ r.name ++ ", phones: " ++
    String.intercalate "; " (r.phones.map Phone.value) ++
    (match r.birthday with
     | some b => ", birthday: " ++ b.value
     | none => "")

/-- Embeds `AddressBook.__str__` (the spec's `render()`). -/
def render (book : List Record) : String :=
  if book.isEmpty then "Address book is empty"
  else String.intercalate "\n" (book.map recordStr)

/-! ## The upcoming-birthdays query -/

/-- This year's occurrence of a birthday's month/day:
`bday = record.birthday.date_obj().replace(year=today.year)` followed by
`if bday < today: bday = bday.replace(year=today.year + 1)`.
`none` models the `ValueError` either `replace` can raise. -/
def occurrence (d today : Date) : Option Date :=
  match replaceYear d today.year with
  | none => none
  | some b => if dateLt b today then replaceYear b (today.year + 1) else some b

/-- The weekend adjustment inside `get_upcoming_birthdays`:
Saturday (`weekday() == 5`) moves 2 days forward, Sunday (`weekday() == 6`)
1 day forward. -/
def weekendShift (d : Date) : Date :=
  if weekday d = 5 then addDays d 2
  else if weekday d = 6 then addDays d 1
  else d

/-- Embeds `AddressBook.get_upcoming_birthdays(days=7)`, with `today`
(read from the clock in the source) passed explicitly.  Records without a
birthday are skipped; for the rest, the year-replaced occurrence is kept
when `0 <= (bday - today).days <= days`, weekend-shifted, and emitted as
`(name, congratulation_date)`.  `Except.error` models a `ValueError`
escaping the method (the iteration stops at the first failing record). -/
def get_upcoming_birthdays :
    List Record → Date → Nat → Except String (List (String × String))
  | [], _, _ => Except.ok []
  | r :: rs, today, days =>
    match r.birthday with
    | none => get_upcoming_birthdays rs today days
    | some b =>
      match dateObj b with
      | none => Except.error "time data does not match format"
      | some d =>
        match occurrence d today with
        | none => Except.error "day is out of range for month"
        | some occ =>
          match get_upcoming_birthdays rs today days with
          | Except.error e => Except.error e
          | Except.ok rest =>
            if 0 ≤ diffDays occ today ∧ diffDays occ today ≤ (days : Int) then
              Except.ok ((r.name, formatDate (weekendShift occ)) :: rest)
            else Except.ok rest

/-- The hypothesis of the amended totality claim: every birthday present in
the book parses (it was successfully constructed) and its month/day is not
29 February. -/
def noFeb29 (recs : List Record) : Prop :=
  ∀ r ∈ recs, ∀ b, r.birthday = some b →
    ∃ d, dateObj b = some d ∧ ¬(d.month = 2 ∧ d.day = 29)

/-! ## Phone editing -/

/-- Embeds `Record.edit_phone(old_phone, new_phone)`.  Returns the
post-state of the phone list together with `ok` or the raised error: the
loop scans for the first phone whose value equals `old_phone`; on a match,
`Phone(new_phone)` is validated *before* the assignment replaces the slot
(so a validation failure leaves the list untouched); with no match the
loop falls through to `raise ValueError("Phone not found")`. -/
def edit_phone : List Phone → String → String → List Phone × Except String Unit
  | [], _, _ => ([], Except.error "Phone not found")
  | p :: ps, oldPhone, newPhone =>
    if p.value == oldPhone then
      match Phone.mkValidated newPhone with
      | some np => (np :: ps, Except.ok ())
      | none => (p :: ps, Except.error "Phone must contain exactly 10 digits")
    else
      let r := edit_phone ps oldPhone newPhone
      (p :: r.1, r.2)

/-! ## The command loop -/

/-- Whitespace splitting of Python's `str.split()` (runs of whitespace
separate tokens; no empty tokens).  `acc` holds the current token's
characters in reverse. -/
def splitWsAux : List Char → List Char → List String
  | [], acc => if acc.isEmpty then [] else [String.mk acc.reverse]
  | c :: cs, acc =>
    if c.isWhitespace then
      if acc.isEmpty then splitWsAux cs []
      else String.mk acc.reverse :: splitWsAux cs []
    else splitWsAux cs (c :: acc)

/-- `user_input.split()`. -/
def splitWs (s : String) : List String :=
  splitWsAux s.data []

/-- `str.lower()` (the command tokens compared against are ASCII). -/
def toLowerStr (s : String) : String :=
  s.map Char.toLower

/-- Embeds `parse_input`: `parts[0]` raises `IndexError` on an empty token
list (modelled as `none`), otherwise yields the lowered command and the
remaining arguments. -/
def parse_input (userInput : String) : Option (String × List String) :=
  match splitWs userInput with
  | [] => none
  | c :: rest => some (toLowerStr c, rest)

/-- The message of Python's `ValueError` for a tuple-unpacking mismatch. -/
def unpackError (expected got : Nat) : String :=
  if got < expected then
    "not enough values to unpack (expected " ++ toString expected ++
      ", got " ++ toString got ++ ")"
  else "too many values to unpack (expected " ++ toString expected ++ ")"

/-- Result of running one command's body (the code inside `try`): the
post-state of the book, the exception that escaped to the loop's `except`
block (if any), whether the branch executed `break`, and the lines printed
before any exception. -/
structure CmdResult where
  book : List Record
  raised : Option String
  exited : Bool
  output : List String
deriving DecidableEq

/-- The `add` branch of `main`: unpack `name, phone`, create the record
and insert it into the book when the name is new, then `add_phone`
(which validates).  The record is added to the book *before* the phone is
validated, so a bad phone still leaves the fresh empty record behind. -/
def addCommand (book : List Record) (args : List String) : CmdResult :=
  match args with
  | [name, phone] =>
    match find book name with
    | some _ =>
      if phoneValid phone then
        ⟨updateRecord book name
          (fun q => { q with phones := q.phones ++ [⟨phone⟩] }),
          none, false, ["Contact added."]⟩
      else ⟨book, some "Phone must contain exactly 10 digits", false, []⟩
    | none =>
      if name = "" then ⟨book, some "Name cannot be empty", false, []⟩
      else
        let book1 := add_record book ⟨name, [], none⟩
        if phoneValid phone then
          ⟨updateRecord book1 name
            (fun q => { q with phones := q.phones ++ [⟨phone⟩] }),
            none, false, ["Contact added."]⟩
        else ⟨book1, some "Phone must contain exactly 10 digits", false, []⟩
  | _ => ⟨book, some (unpackError 2 args.length), false, []⟩

/-- The `change` branch of `main`: unpack three arguments, look the record
up, and run `edit_phone` (the record's phone list takes `edit_phone`'s
post-state whether or not it raised). -/
def changeCommand (book : List Record) (args : List String) : CmdResult :=
  match args with
  | [name, oldPhone, newPhone] =>
    match find book name with
    | none => ⟨book, some "Contact not found", false, []⟩
    | some r =>
      let e := edit_phone r.phones oldPhone newPhone
      let book1 := updateRecord book name (fun q => { q with phones := e.1 })
      match e.2 with
      | Except.ok _ => ⟨book1, none, false, ["Phone updated."]⟩
      | Except.error m => ⟨book1, some m, false, []⟩
  | _ => ⟨book, some (unpackError 3 args.length), false, []⟩

/-- The `phone` branch of `main` (`args[0]` raises `IndexError` when no
argument is given; extra arguments are ignored). -/
def phoneCommand (book : List Record) (args : List String) : CmdResult :=
  match args with
  | [] => ⟨book, some "list index out of range", false, []⟩
  | name :: _ =>
    match find book name with
    | none => ⟨book, some "Contact not found", false, []⟩
    | some r =>
      ⟨book, none, false,
        [String.intercalate "; " (r.phones.map Phone.value)]⟩

/-- The `add-birthday` branch of `main`. -/
def addBirthdayCommand (book : List Record) (args : List String) : CmdResult :=
  match args with
  | [name, bd] =>
    match find book name with
    | none => ⟨book, some "Contact not found", false, []⟩
    | some _ =>
      if birthdayValid bd then
        ⟨updateRecord book name (fun q => { q with birthday := some ⟨bd⟩ }),
          none, false, ["Birthday added."]⟩
      else ⟨book, some "Invalid date format. Use DD.MM.YYYY", false, []⟩
  | _ => ⟨book, some (unpackError 2 args.length), false, []⟩

/-- The `show-birthday` branch of `main`. -/
def showBirthdayCommand (book : List Record) (args : List String) : CmdResult :=
  match args with
  | [] => ⟨book, some "list index out of range", false, []⟩
  | name :: _ =>
    match find book name with
    | none => ⟨book, none, false, ["No birthday set."]⟩
    | some r =>
      match r.birthday with
      | none => ⟨book, none, false, ["No birthday set."]⟩
      | some b => ⟨book, none, false, [b.value]⟩

/-- The `birthdays` branch of `main` (a `ValueError` escaping
`get_upcoming_birthdays` propagates to the loop's `except`). -/
def birthdaysCommand (book : List Record) (today : Date) : CmdResult :=
  match get_upcoming_birthdays book today 7 with
  | Except.error e => ⟨book, some e, false, []⟩
  | Except.ok [] => ⟨book, none, false, ["No upcoming birthdays."]⟩
  | Except.ok us => ⟨book, none, false, us.map (fun u => u.1 ++ ": " ++ u.2)⟩

/-- Embeds the dispatch inside the `try` block of `main` (one command's
processing), with `today` passed in for the `birthdays` branch. -/
def executeCommand (book : List Record) (command : String)
    (args : List String) (today : Date) : CmdResult :=
  if command = "exit" ∨ command = "close" then ⟨book, none, true, ["Good bye!"]⟩
  else if command = "hello" then ⟨book, none, false, ["How can I help you?"]⟩
  else if command = "add" then addCommand book args
  else if command = "change" then changeCommand book args
  else if command = "phone" then phoneCommand book args
  else if command = "all" then ⟨book, none, false, [render book]⟩
  else if command = "add-birthday" then addBirthdayCommand book args
  else if command = "show-birthday" then showBirthdayCommand book args
  else if command = "birthdays" then birthdaysCommand book today
  else ⟨book, none, false, ["Invalid command."]⟩

/-- Observable outcome of one iteration of `main`'s `while True` loop. -/
inductive StepOutcome where
  | crashed (msg : String)
  | continued (book : List Record) (output : List String)
  | exited (book : List Record) (output : List String)
deriving DecidableEq

/-- One iteration of `main`'s loop on input `line`.  `parse_input` runs
*before* the `try` block, so its `IndexError` (empty token list) is not
caught and kills the process; every exception raised inside the dispatch is
caught by `except Exception` and printed as `"Error: <message>"`, and the
loop continues. -/
def loopStep (book : List Record) (today : Date) (line : String) : StepOutcome :=
  match parse_input line with
  | none => StepOutcome.crashed "list index out of range"
  | some (command, args) =>
    let r := executeCommand book command args today
    match r.raised with
    | some e => StepOutcome.continued r.book (r.output ++ ["Error: " ++ e])
    | none =>
      if r.exited then StepOutcome.exited r.book r.output
      else StepOutcome.continued r.book r.output

/-! ## Persistence (`save_data` / `load_data`)

`pickle` is not part of this repository; per its documented contract it
serializes the full object graph (for these classes: each record's name
string, phone value strings and optional birthday string) and
deserializes it back identically.  We model the byte stream by that
structural content — the persisted format is private to the
implementation, the spec's only requirement being save/load round-trip
fidelity. -/

/-- The structural content `pickle.dump` records for one `Record`. -/
def encodeRecord (r : Record) : String × List String × Option String :=
  (r.name, r.phones.map Phone.value, r.birthday.map Birthday.value)

/-- Rebuilding a `Record` from its pickled content. -/
def decodeRecord (p : String × List String × Option String) : Record :=
  ⟨p.1, p.2.1.map Phone.mk, p.2.2.map Birthday.mk⟩

/-- Embeds `save_data(book, filename)`: the written file's content. -/
def save_data (book : List Record) : List (String × List String × Option String) :=
  book.map encodeRecord

/-- Embeds `load_data(filename)`: `none` for the file's content models
`FileNotFoundError`, answered with a fresh empty `AddressBook()`. -/
def load_data (contents : Option (List (String × List String × Option String))) :
    List Record :=
  match contents with
  | none => []
  | some l => l.map decodeRecord


/-! # Theorems -/

/-! ## String-splitting machinery -/

theorem splitDots_ne_nil (cs : List Char) : splitDots cs ≠ [] := by
  cases cs with
  | nil => simp [splitDots]
  | cons c cs =>
    simp only [splitDots]
    split
    · simp
    · split <;> simp

theorem joinDots_splitDots (cs : List Char) : joinDots (splitDots cs) = cs := by
  induction cs with
  | nil => rfl
  | cons c cs ih =>
    by_cases hc : c = '.'
    · subst hc
      simp only [splitDots, if_pos rfl]
      cases h : splitDots cs with
      | nil => exact absurd h (splitDots_ne_nil cs)
      | cons p ps =>
        rw [h] at ih
        show joinDots ([] :: p :: ps) = '.' :: cs
        show [] ++ '.' :: joinDots (p :: ps) = '.' :: cs
        rw [List.nil_append, ih]
    · simp only [splitDots, if_neg hc]
      cases h : splitDots cs with
      | nil => exact absurd h (splitDots_ne_nil cs)
      | cons p ps =>
        rw [h] at ih
        cases ps with
        | nil =>
          show c :: p = c :: cs
          rw [show joinDots [p] = p from rfl] at ih
          rw [ih]
        | cons q qs =>
          show (c :: p) ++ '.' :: joinDots (q :: qs) = c :: cs
          rw [List.cons_append]
          rw [show p ++ '.' :: joinDots (q :: qs) = joinDots (p :: q :: qs) from rfl]
          rw [ih]

theorem splitDots_append (a : List Char) (cs : List Char) (p : List Char)
    (ps : List (List Char)) (h : splitDots cs = p :: ps) (ha : '.' ∉ a) :
    splitDots (a ++ cs) = (a ++ p) :: ps := by
  induction a with
  | nil => simpa using h
  | cons x a ih =>
    have hx : ¬(x = '.') := fun hh => ha (hh ▸ List.mem_cons_self x a)
    have ha' : '.' ∉ a := fun hm => ha (List.mem_cons_of_mem x hm)
    rw [List.cons_append]
    simp only [splitDots, if_neg hx]
    rw [ih ha']
    rfl

theorem splitDots_single (a : List Char) (ha : '.' ∉ a) : splitDots a = [a] := by
  have h := splitDots_append a [] [] [] rfl ha
  simpa using h

theorem splitDots_three (ds ms ys : List Char) (h1 : '.' ∉ ds) (h2 : '.' ∉ ms)
    (h3 : '.' ∉ ys) :
    splitDots (ds ++ '.' :: (ms ++ '.' :: ys)) = [ds, ms, ys] := by
  have e3 : splitDots ys = [ys] := splitDots_single ys h3
  have e2 : splitDots ('.' :: ys) = [[], ys] := by
    simp [splitDots, e3]
  have e2' : splitDots (ms ++ '.' :: ys) = [ms, ys] := by
    have h := splitDots_append ms ('.' :: ys) [] [ys] e2 h2
    simpa using h
  have e1 : splitDots ('.' :: (ms ++ '.' :: ys)) = [[], ms, ys] := by
    simp [splitDots, e2']
  have h := splitDots_append ds ('.' :: (ms ++ '.' :: ys)) [] [ms, ys] e1 h1
  simpa using h

theorem no_dot_of_all_digit (cs : List Char) (h : cs.all Char.isDigit = true) :
    '.' ∉ cs := fun hm => absurd (List.all_eq_true.mp h '.' hm) (by decide)

/-! ## Claim C4: phone validation -/

/-- C4 (amended): `Phone` construction succeeds, storing the value
unchanged, exactly when the value has length 10 and every character is a
digit in the sense of Python's `str.isdigit` — a class that contains the
ASCII digits 0-9 but also other Unicode digit characters. -/
theorem phone_roundtrip_iff (s : String) :
    (∃ p, Phone.mkValidated s = some p ∧ p.value = s) ↔
      (s.length = 10 ∧ s.data.all pyIsDigit = true) := by
  constructor
  · rintro ⟨p, hp, hv⟩
    unfold Phone.mkValidated at hp
    split at hp
    case isTrue h =>
      unfold phoneValid pyIsdigitStr at h
      rw [Bool.and_eq_true, Bool.and_eq_true] at h
      obtain ⟨⟨_, hall⟩, hlen⟩ := h
      exact ⟨by simpa using hlen, hall⟩
    case isFalse => cases hp
  · rintro ⟨hlen, hall⟩
    have hne : s.data.isEmpty = false := by
      cases hd : s.data with
      | nil =>
        have : s.length = 0 := by
          show s.data.length = 0
          rw [hd]
          rfl
        omega
      | cons c cs => rfl
    have hcond : phoneValid s = true := by
      unfold phoneValid pyIsdigitStr
      rw [Bool.and_eq_true, Bool.and_eq_true]
      exact ⟨⟨by rw [hne]; rfl, hall⟩, by rw [hlen]; rfl⟩
    exact ⟨⟨s⟩, by unfold Phone.mkValidated; rw [if_pos hcond], rfl⟩

/-- C4 witness: the all-ASCII-digit string "0123456789" is accepted and
round-trips. -/
theorem phone_roundtrip_iff_witness :
    ∃ p, Phone.mkValidated "0123456789" = some p ∧ p.value = "0123456789" :=
  (phone_roundtrip_iff "0123456789").mpr (by decide)

/-- C4 counterexample: the claim says every string containing a character
outside 0-9 is rejected, but ten SUPERSCRIPT TWO characters — digits for
Python's `str.isdigit`, not decimal digits 0-9 — are accepted. -/
theorem phone_nonascii_digit_accepted :
    (Phone.mkValidated "²²²²²²²²²²").isSome = true ∧
      "²²²²²²²²²²".data.all Char.isDigit = false := by
  constructor
  · rfl
  · rfl

/-! ## Claim C5: birthday validation -/

/-- C5 (amended): over ASCII strings, `Birthday` construction succeeds
exactly for `D.M.YYYY` strings — day and month of one or two digits (so
zero-padding is NOT required for them), dot separators, an exactly
four-digit year — denoting a real calendar date; wrong separators,
impossible day or month, non-four-digit years and extra characters fail. -/
theorem birthday_valid_iff (s : String) (_hascii : ∀ c ∈ s.data, c.toNat < 128) :
    birthdayValid s = true ↔
      ∃ ds ms ys : List Char,
        s.data = ds ++ '.' :: (ms ++ '.' :: ys) ∧
        dayToken ds ∧ monthToken ms ∧ yearToken ys ∧
        dateValid ⟨digitsVal ys, digitsVal ms, digitsVal ds⟩ = true := by
  constructor
  · intro h
    unfold birthdayValid parseBirthday at h
    have hjoin := joinDots_splitDots s.data
    rcases hsp : splitDots s.data with _ | ⟨ds, _ | ⟨ms, _ | ⟨ys, _ | ⟨e, es⟩⟩⟩⟩ <;>
      rw [hsp] at h
    · simp at h
    · simp at h
    · simp at h
    · rw [hsp] at hjoin
      have h' : (if dayToken ds ∧ monthToken ms ∧ yearToken ys then
          if dateValid ⟨digitsVal ys, digitsVal ms, digitsVal ds⟩ = true then
            some (⟨digitsVal ys, digitsVal ms, digitsVal ds⟩ : Date)
          else none
        else none).isSome = true := h
      by_cases htok : dayToken ds ∧ monthToken ms ∧ yearToken ys
      · rw [if_pos htok] at h'
        by_cases hv : dateValid ⟨digitsVal ys, digitsVal ms, digitsVal ds⟩ = true
        · refine ⟨ds, ms, ys, ?_, htok.1, htok.2.1, htok.2.2, hv⟩
          rw [show joinDots [ds, ms, ys] = ds ++ '.' :: (ms ++ '.' :: ys) from rfl]
            at hjoin
          exact hjoin.symm
        · rw [if_neg hv] at h'
          cases h'
      · rw [if_neg htok] at h'
        cases h'
    · simp at h
  · rintro ⟨ds, ms, ys, hdec, hd, hm, hy, hv⟩
    have h1 := no_dot_of_all_digit ds hd.1
    have h2 := no_dot_of_all_digit ms hm.1
    have h3 := no_dot_of_all_digit ys hy.1
    unfold birthdayValid parseBirthday
    rw [hdec, splitDots_three ds ms ys h1 h2 h3]
    show (if dayToken ds ∧ monthToken ms ∧ yearToken ys then
        if dateValid ⟨digitsVal ys, digitsVal ms, digitsVal ds⟩ = true then
          some (⟨digitsVal ys, digitsVal ms, digitsVal ds⟩ : Date)
        else none
      else none).isSome = true
    rw [if_pos ⟨hd, hm, hy⟩, if_pos hv]
    rfl

/-- C5 witness: "25.12.1990" (the spec's own example) is accepted. -/
theorem birthday_valid_iff_witness : birthdayValid "25.12.1990" = true :=
  (birthday_valid_iff "25.12.1990" (by decide)).mpr
    ⟨['2', '5'], ['1', '2'], ['1', '9', '9', '0'], by decide, by decide,
      by decide, by decide, by decide⟩

/-- C5 counterexample: the claim says a string missing zero-padding fails
construction, but "5.06.1990" (one-digit day) is accepted by `strptime`'s
lenient `%d` directive. -/
theorem birthday_unpadded_accepted :
    birthdayValid "5.06.1990" = true ∧ specExactFormat "5.06.1990" = false := by
  constructor
  · rfl
  · rfl

/-! ## Claims C6/C7: phone editing -/

/-- C6: when the old value matches some stored phone and the new value is
malformed, `edit_phone` raises the validation error and the phone list is
exactly as it was — the new `Phone` is validated before the slot is
assigned, so there is no partial mutation. -/
theorem edit_phone_invalid_new (phones : List Phone) (oldPhone newPhone : String)
    (hmem : ∃ p ∈ phones, p.value = oldPhone)
    (hbad : phoneValid newPhone = false) :
    edit_phone phones oldPhone newPhone =
      (phones, Except.error "Phone must contain exactly 10 digits") := by
  induction phones with
  | nil => simp at hmem
  | cons p ps ih =>
    by_cases hp : (p.value == oldPhone) = true
    · have hnone : Phone.mkValidated newPhone = none := by
        unfold Phone.mkValidated
        rw [hbad]
        rfl
      simp only [edit_phone, if_pos hp]
      rw [hnone]
    · obtain ⟨q, hq, hqv⟩ := hmem
      rcases List.mem_cons.mp hq with rfl | hq'
      · exact absurd (by simp [hqv]) hp
      · simp only [edit_phone, if_neg hp]
        rw [ih ⟨q, hq', hqv⟩]

/-- C6 witness. -/
theorem edit_phone_invalid_new_witness :
    edit_phone [⟨"0123456789"⟩] "0123456789" "12x" =
      ([⟨"0123456789"⟩], Except.error "Phone must contain exactly 10 digits") :=
  edit_phone_invalid_new [⟨"0123456789"⟩] "0123456789" "12x"
    ⟨⟨"0123456789"⟩, by simp, rfl⟩ (by decide)

theorem edit_phone_no_match (phones : List Phone) (oldPhone newPhone : String)
    (h : ∀ p ∈ phones, p.value ≠ oldPhone) :
    edit_phone phones oldPhone newPhone =
      (phones, Except.error "Phone not found") := by
  induction phones with
  | nil => rfl
  | cons p ps ih =>
    have hp : ¬(p.value == oldPhone) = true := by
      simp only [beq_iff_eq]
      exact h p (List.mem_cons_self p ps)
    simp only [edit_phone, if_neg hp]
    rw [ih (fun q hq => h q (List.mem_cons_of_mem p hq))]

theorem edit_phone_first_match (l₁ : List Phone) (p : Phone) (l₂ : List Phone)
    (oldPhone newPhone : String) (np : Phone)
    (hp : p.value = oldPhone) (hl₁ : ∀ q ∈ l₁, q.value ≠ oldPhone)
    (hnp : Phone.mkValidated newPhone = some np) :
    edit_phone (l₁ ++ p :: l₂) oldPhone newPhone =
      (l₁ ++ np :: l₂, Except.ok ()) := by
  induction l₁ with
  | nil =>
    simp only [List.nil_append, edit_phone]
    rw [if_pos (by simp [hp]), hnp]
  | cons q l₁ ih =>
    have hq : ¬(q.value == oldPhone) = true := by
      simp only [beq_iff_eq]
      exact hl₁ q (List.mem_cons_self q l₁)
    have hrec := ih (fun x hx => hl₁ x (List.mem_cons_of_mem q hx))
    simp only [List.cons_append, edit_phone, if_neg hq]
    show (q :: (edit_phone (l₁ ++ p :: l₂) oldPhone newPhone).1,
        (edit_phone (l₁ ++ p :: l₂) oldPhone newPhone).2) =
      (q :: (l₁ ++ np :: l₂), Except.ok ())
    rw [hrec]

/-- C7: `edit_phone` with no stored phone equal to the old value raises
"Phone not found" and leaves the list unchanged; when a match exists, the
first match in order is the one replaced. -/
theorem edit_phone_not_found_or_first (phones : List Phone)
    (oldPhone newPhone : String) :
    ((∀ p ∈ phones, p.value ≠ oldPhone) →
      edit_phone phones oldPhone newPhone =
        (phones, Except.error "Phone not found")) ∧
    (∀ l₁ p l₂ np, phones = l₁ ++ p :: l₂ → p.value = oldPhone →
      (∀ q ∈ l₁, q.value ≠ oldPhone) → Phone.mkValidated newPhone = some np →
      edit_phone phones oldPhone newPhone = (l₁ ++ np :: l₂, Except.ok ())) := by
  constructor
  · exact fun h => edit_phone_no_match phones oldPhone newPhone h
  · intro l₁ p l₂ np he hp hl₁ hnp
    subst he
    exact edit_phone_first_match l₁ p l₂ oldPhone newPhone np hp hl₁ hnp

/-- C7 witness: both halves at concrete inputs. -/
theorem edit_phone_not_found_or_first_witness :
    edit_phone [⟨"1111111111"⟩] "2222222222" "3333333333" =
      ([⟨"1111111111"⟩], Except.error "Phone not found") ∧
    edit_phone [⟨"1111111111"⟩, ⟨"2222222222"⟩] "2222222222" "0123456789" =
      ([⟨"1111111111"⟩, ⟨"0123456789"⟩], Except.ok ()) := by
  constructor
  · exact (edit_phone_not_found_or_first [⟨"1111111111"⟩] "2222222222"
      "3333333333").1 (by decide)
  · exact (edit_phone_not_found_or_first [⟨"1111111111"⟩, ⟨"2222222222"⟩]
      "2222222222" "0123456789").2 [⟨"1111111111"⟩] ⟨"2222222222"⟩ []
      ⟨"0123456789"⟩ rfl rfl (by decide) (by decide)

/-! ## Claim C9: persistence round-trip -/

theorem decode_encode_record (r : Record) : decodeRecord (encodeRecord r) = r := by
  cases r with
  | mk n ps bd =>
    unfold encodeRecord decodeRecord
    simp only [List.map_map, Option.map_map]
    rw [show Phone.mk ∘ Phone.value = id from rfl,
      show Birthday.mk ∘ Birthday.value = id from rfl,
      List.map_id, Option.map_id]
    rfl

/-- C9: saving an address book and loading it back yields the very same
book — every record name, phone value and birthday value preserved — so in
particular it renders identically. -/
theorem save_load_roundtrip (book : List Record) :
    load_data (some (save_data book)) = book ∧
    render (load_data (some (save_data book))) = render book := by
  have h : load_data (some (save_data book)) = book := by
    show List.map decodeRecord (List.map encodeRecord book) = book
    rw [List.map_map]
    rw [show (decodeRecord ∘ encodeRecord) = id from
      funext fun r => decode_encode_record r]
    exact List.map_id book
  exact ⟨h, by rw [h]⟩

/-! ## Claim C10: `add` mutates before validating -/

theorem find_add_record_new (book : List Record) (r : Record)
    (hf : find book r.name = none) :
    find (add_record book r) r.name = some r := by
  induction book with
  | nil => simp [add_record, find]
  | cons q qs ih =>
    by_cases hq : (q.name == r.name) = true
    · exfalso
      simp only [find, if_pos hq] at hf
      cases hf
    · simp only [find, if_neg hq] at hf
      simp only [add_record, if_neg hq, find]
      exact ih hf

/-- C10: an `add` command with a name not in the book and a malformed phone
value raises the phone validation error, yet the book ends up mutated: it
now holds a record under that name with no phones and no birthday, because
the fresh record is inserted before the phone value is validated. -/
theorem add_new_name_invalid_phone_mutates (book : List Record)
    (name phone : String) (today : Date)
    (hfind : find book name = none) (hname : ¬name = "")
    (hphone : phoneValid phone = false) :
    (executeCommand book "add" [name, phone] today).raised =
      some "Phone must contain exactly 10 digits" ∧
    find (executeCommand book "add" [name, phone] today).book name =
      some ⟨name, [], none⟩ := by
  have he : executeCommand book "add" [name, phone] today =
      addCommand book [name, phone] := rfl
  have hb : addCommand book [name, phone] =
      ⟨add_record book ⟨name, [], none⟩,
        some "Phone must contain exactly 10 digits", false, []⟩ := by
    simp only [addCommand, hfind, if_neg hname, hphone, Bool.false_eq_true,
      if_false]
  rw [he, hb]
  exact ⟨rfl, find_add_record_new book ⟨name, [], none⟩ hfind⟩

/-- C10 witness. -/
theorem add_new_name_invalid_phone_mutates_witness :
    (executeCommand [] "add" ["Ann", "123"] ⟨2024, 1, 1⟩).raised =
      some "Phone must contain exactly 10 digits" ∧
    find (executeCommand [] "add" ["Ann", "123"] ⟨2024, 1, 1⟩).book "Ann" =
      some ⟨"Ann", [], none⟩ :=
  add_new_name_invalid_phone_mutates [] "Ann" "123" ⟨2024, 1, 1⟩ rfl
    (by decide) (by decide)

/-! ## Claim C8: the command loop and error catching -/

/-- C8 (amended): for every input line containing at least one token, any
error raised while processing that command is caught by the loop's
`except` block (surfacing as an "Error: ..." line) and the process
survives the iteration — the loop step never crashes.  Only the
tokenisation in `parse_input`, which runs before the `try` block, can
crash, and it does so exactly on token-less (empty or whitespace-only)
lines. -/
theorem loop_continues_nonempty (book : List Record) (today : Date)
    (line : String) (h : splitWs line ≠ []) (m : String) :
    loopStep book today line ≠ StepOutcome.crashed m := by
  cases hs : splitWs line with
  | nil => exact absurd hs h
  | cons c rest =>
    intro hc
    simp only [loopStep, parse_input, hs] at hc
    cases hr : (executeCommand book (toLowerStr c) rest today).raised with
    | none =>
      simp only [hr] at hc
      split at hc <;> cases hc
    | some e => simp [hr] at hc

/-- C8 witness: a nonempty line does not crash the loop. -/
theorem loop_continues_nonempty_witness :
    loopStep [] ⟨2024, 1, 1⟩ "hello" ≠ StepOutcome.crashed "boom" :=
  loop_continues_nonempty [] ⟨2024, 1, 1⟩ "hello" (by decide) "boom"

/-- C8 counterexample: the claim says no input line kills the process, but
an empty line and a whitespace-only line raise `IndexError` in
`parse_input`, outside the `try` block, and crash the loop. -/
theorem loop_empty_line_crashes :
    loopStep [] ⟨2024, 1, 1⟩ "" = StepOutcome.crashed "list index out of range" ∧
    loopStep [] ⟨2024, 1, 1⟩ "   " =
      StepOutcome.crashed "list index out of range" := by
  constructor
  · rfl
  · rfl

/-! ## Claims C1/C2/C3: the upcoming-birthdays query -/

theorem upcoming_cons_none (r : Record) (rs : List Record) (today : Date)
    (days : Nat) (res : List (String × String)) (hb : r.birthday = none)
    (hok : get_upcoming_birthdays (r :: rs) today days = Except.ok res) :
    get_upcoming_birthdays rs today days = Except.ok res := by
  simp only [get_upcoming_birthdays, hb] at hok
  exact hok

theorem upcoming_cons_some (r : Record) (rs : List Record) (today : Date)
    (days : Nat) (res : List (String × String)) (b : Birthday)
    (hb : r.birthday = some b)
    (hok : get_upcoming_birthdays (r :: rs) today days = Except.ok res) :
    ∃ d occ rest, dateObj b = some d ∧ occurrence d today = some occ ∧
      get_upcoming_birthdays rs today days = Except.ok rest ∧
      (((0 ≤ diffDays occ today ∧ diffDays occ today ≤ (days : Int)) ∧
          res = (r.name, formatDate (weekendShift occ)) :: rest) ∨
        (¬(0 ≤ diffDays occ today ∧ diffDays occ today ≤ (days : Int)) ∧
          res = rest)) := by
  simp only [get_upcoming_birthdays, hb] at hok
  cases hd : dateObj b with
  | none => simp only [hd] at hok; cases hok
  | some d =>
    simp only [hd] at hok
    cases hc : occurrence d today with
    | none => simp only [hc] at hok; cases hok
    | some occ =>
      simp only [hc] at hok
      cases hrest : get_upcoming_birthdays rs today days with
      | error e => simp only [hrest] at hok; cases hok
      | ok rest =>
        simp only [hrest] at hok
        by_cases hw : 0 ≤ diffDays occ today ∧ diffDays occ today ≤ (days : Int)
        · rw [if_pos hw] at hok
          injection hok with heq
          exact ⟨d, occ, rest, rfl, hc, rfl, Or.inl ⟨hw, heq.symm⟩⟩
        · rw [if_neg hw] at hok
          injection hok with heq
          exact ⟨d, occ, rest, rfl, hc, rfl, Or.inr ⟨hw, heq.symm⟩⟩

theorem upcoming_names_subset (recs : List Record) (today : Date) (days : Nat)
    (res : List (String × String))
    (hok : get_upcoming_birthdays recs today days = Except.ok res) :
    ∀ x ∈ res, x.1 ∈ recs.map Record.name := by
  induction recs generalizing res with
  | nil =>
    have hres : res = [] := by
      simp only [get_upcoming_birthdays] at hok
      injection hok with heq
      exact heq.symm
    intro x hx
    rw [hres] at hx
    cases hx
  | cons q qs ih =>
    cases hb : q.birthday with
    | none =>
      have hok' := upcoming_cons_none q qs today days res hb hok
      intro x hx
      rw [List.map_cons]
      exact List.mem_cons_of_mem _ (ih res hok' x hx)
    | some b =>
      obtain ⟨d, occ, rest, hd, hc, hrest, hcase⟩ :=
        upcoming_cons_some q qs today days res b hb hok
      intro x hx
      rw [List.map_cons]
      rcases hcase with ⟨hw, rfl⟩ | ⟨hw, rfl⟩
      · rcases List.mem_cons.mp hx with rfl | hx'
        · exact List.mem_cons_self _ _
        · exact List.mem_cons_of_mem _ (ih rest hrest x hx')
      · exact List.mem_cons_of_mem _ (ih res hrest x hx)

/-- C1: when `get_upcoming_birthdays` returns a result for a book whose
record names are distinct (as the dict's keys are), a record with a
birthday appears in the result exactly when this year's occurrence of the
birthday's month/day (rolled forward one year when it has already passed
relative to `today`) satisfies `0 ≤ (occurrence − today).days ≤ days`,
inclusive at both ends; records with no birthday never appear. -/
theorem upcoming_window_iff (recs : List Record) (today : Date) (days : Nat)
    (res : List (String × String)) (r : Record)
    (hnd : (recs.map Record.name).Nodup)
    (hok : get_upcoming_birthdays recs today days = Except.ok res)
    (hr : r ∈ recs) :
    (∀ b, r.birthday = some b → ∃ d occ, dateObj b = some d ∧
      occurrence d today = some occ ∧
      (r.name ∈ res.map Prod.fst ↔
        (0 ≤ diffDays occ today ∧ diffDays occ today ≤ (days : Int)))) ∧
    (r.birthday = none → r.name ∉ res.map Prod.fst) := by
  induction recs generalizing res with
  | nil => cases hr
  | cons q qs ih =>
    rw [List.map_cons] at hnd
    obtain ⟨hqn, hnd'⟩ := List.nodup_cons.mp hnd
    rcases List.mem_cons.mp hr with heq | hr'
    · subst heq
      cases hb : r.birthday with
      | none =>
        have hok' := upcoming_cons_none r qs today days res hb hok
        constructor
        · intro b hbb
          cases hbb
        · intro _ hmem
          obtain ⟨x, hx, hx1⟩ := List.mem_map.mp hmem
          have hsub := upcoming_names_subset qs today days res hok' x hx
          rw [hx1] at hsub
          exact hqn hsub
      | some b =>
        obtain ⟨d, occ, rest, hd, hc, hrest, hcase⟩ :=
          upcoming_cons_some r qs today days res b hb hok
        constructor
        · intro b' hbb
          injection hbb with hbeq
          subst hbeq
          refine ⟨d, occ, hd, hc, ?_⟩
          rcases hcase with ⟨hw, rfl⟩ | ⟨hw, rfl⟩
          · constructor
            · intro _
              exact hw
            · intro _
              rw [List.map_cons]
              exact List.mem_cons_self _ _
          · constructor
            · intro hmem
              exfalso
              obtain ⟨x, hx, hx1⟩ := List.mem_map.mp hmem
              have hsub := upcoming_names_subset qs today days res hrest x hx
              rw [hx1] at hsub
              exact hqn hsub
            · intro hw'
              exact absurd hw' hw
        · intro hbn
          cases hbn
    · have hrn : r.name ≠ q.name := by
        intro he
        exact hqn (he ▸ List.mem_map_of_mem Record.name hr')
      cases hb : q.birthday with
      | none =>
        exact ih res hnd' (upcoming_cons_none q qs today days res hb hok) hr'
      | some b =>
        obtain ⟨d, occ, rest, hd, hc, hrest, hcase⟩ :=
          upcoming_cons_some q qs today days res b hb hok
        have main := ih rest hnd' hrest hr'
        rcases hcase with ⟨hw, rfl⟩ | ⟨hw, rfl⟩
        · constructor
          · intro b' hbb
            obtain ⟨d', occ', hd', hc', hiff⟩ := main.1 b' hbb
            refine ⟨d', occ', hd', hc', ?_⟩
            rw [List.map_cons, List.mem_cons]
            constructor
            · rintro (he | hm)
              · exact absurd he hrn
              · exact hiff.mp hm
            · intro hw'
              exact Or.inr (hiff.mpr hw')
          · intro hbn hmem
            rw [List.map_cons, List.mem_cons] at hmem
            rcases hmem with he | hm
            · exact hrn he
            · exact main.2 hbn hm
        · exact main

/-- C2: once a record's unshifted occurrence lies inside the window, the
result contains its entry with congratulation date equal to the occurrence
shifted by 2 days on a Saturday and by 1 day on a Sunday
(`formatDate (weekendShift occ)`); the shift is applied unconditionally
and the shifted date is not re-checked against the window bound. -/
theorem upcoming_weekend_shift (recs : List Record) (today : Date) (days : Nat)
    (res : List (String × String)) (r : Record) (b : Birthday) (d occ : Date)
    (hok : get_upcoming_birthdays recs today days = Except.ok res)
    (hr : r ∈ recs) (hb : r.birthday = some b) (hd : dateObj b = some d)
    (hc : occurrence d today = some occ)
    (hw : 0 ≤ diffDays occ today ∧ diffDays occ today ≤ (days : Int)) :
    (r.name, formatDate (weekendShift occ)) ∈ res := by
  induction recs generalizing res with
  | nil => cases hr
  | cons q qs ih =>
    rcases List.mem_cons.mp hr with heq | hr'
    · subst heq
      obtain ⟨d', occ', rest, hd', hc', hrest, hcase⟩ :=
        upcoming_cons_some r qs today days res b hb hok
      have hde : d' = d := by
        rw [hd] at hd'
        exact (Option.some.inj hd').symm
      subst hde
      have hoe : occ' = occ := by
        rw [hc] at hc'
        exact (Option.some.inj hc').symm
      subst hoe
      rcases hcase with ⟨_, rfl⟩ | ⟨hnw, rfl⟩
      · exact List.mem_cons_self _ _
      · exact absurd hw hnw
    · cases hbq : q.birthday with
      | none =>
        exact ih res (upcoming_cons_none q qs today days res hbq hok) hr'
      | some bq =>
        obtain ⟨dq, occq, rest, hdq, hcq, hrest, hcase⟩ :=
          upcoming_cons_some q qs today days res bq hbq hok
        rcases hcase with ⟨_, rfl⟩ | ⟨_, rfl⟩
        · exact List.mem_cons_of_mem _ (ih rest hrest hr')
        · exact ih res hrest hr'

theorem parseBirthday_dateValid (s : String) (d : Date)
    (h : parseBirthday s = some d) : dateValid d = true := by
  unfold parseBirthday at h
  rcases hsp : splitDots s.data with _ | ⟨ds, _ | ⟨ms, _ | ⟨ys, _ | ⟨e, es⟩⟩⟩⟩ <;>
    rw [hsp] at h
  · exact Option.noConfusion h
  · exact Option.noConfusion h
  · exact Option.noConfusion h
  · have h' : (if dayToken ds ∧ monthToken ms ∧ yearToken ys then
        if dateValid ⟨digitsVal ys, digitsVal ms, digitsVal ds⟩ = true then
          some (⟨digitsVal ys, digitsVal ms, digitsVal ds⟩ : Date)
        else none
      else none) = some d := h
    by_cases htok : dayToken ds ∧ monthToken ms ∧ yearToken ys
    · rw [if_pos htok] at h'
      by_cases hv : dateValid ⟨digitsVal ys, digitsVal ms, digitsVal ds⟩ = true
      · rw [if_pos hv] at h'
        injection h' with hde
        rw [← hde]
        exact hv
      · rw [if_neg hv] at h'
        exact Option.noConfusion h'
    · rw [if_neg htok] at h'
      exact Option.noConfusion h'
  · exact Option.noConfusion h

theorem replaceYear_any_year (d : Date) (y0 : Nat)
    (hb : d.day ≤ daysInMonth y0 d.month)
    (hnf : ¬(d.month = 2 ∧ d.day = 29)) (y : Nat) :
    replaceYear d y = some ⟨y, d.month, d.day⟩ := by
  unfold replaceYear
  rw [if_pos]
  by_cases hm : d.month = 2
  · have hd29 : d.day ≠ 29 := fun hh => hnf ⟨hm, hh⟩
    rw [hm] at hb ⊢
    unfold daysInMonth at hb ⊢
    rw [if_pos rfl] at hb ⊢
    have h29 : d.day ≤ 29 := by
      cases hl0 : isLeap y0 <;> simp [hl0] at hb <;> omega
    have h28 : d.day ≤ 28 := by omega
    cases hl : isLeap y <;> simp [hl] <;> omega
  · have hsame : daysInMonth y d.month = daysInMonth y0 d.month := by
      unfold daysInMonth
      rw [if_neg hm, if_neg hm]
    rw [hsame]
    exact hb

theorem occurrence_total (d : Date) (today : Date)
    (hv : dateValid d = true) (hnf : ¬(d.month = 2 ∧ d.day = 29)) :
    ∃ occ, occurrence d today = some occ := by
  have hb : d.day ≤ daysInMonth d.year d.month := by
    unfold dateValid at hv
    simp only [Bool.and_eq_true, decide_eq_true_eq] at hv
    exact hv.2
  have h1 := replaceYear_any_year d d.year hb hnf today.year
  unfold occurrence
  simp only [h1]
  by_cases hlt : dateLt ⟨today.year, d.month, d.day⟩ today = true
  · rw [if_pos hlt]
    have h2 := replaceYear_any_year ⟨today.year, d.month, d.day⟩ d.year hb hnf
      (today.year + 1)
    exact ⟨_, h2⟩
  · rw [if_neg hlt]
    exact ⟨_, rfl⟩

/-- C3 (amended): `get_upcoming_birthdays` returns a result, for every
`today` and window, whenever every birthday in the book was successfully
constructed and none falls on 29 February.  (A 29-February birthday makes
`date.replace(year=...)` raise whenever the target year is not a leap
year, so totality fails there — see the counterexample.) -/
theorem upcoming_total_no_feb29 (recs : List Record) (today : Date) (days : Nat)
    (h : noFeb29 recs) :
    ∃ res, get_upcoming_birthdays recs today days = Except.ok res := by
  induction recs with
  | nil => exact ⟨[], rfl⟩
  | cons q qs ih =>
    obtain ⟨rest, hrest⟩ := ih (fun r hr => h r (List.mem_cons_of_mem q hr))
    cases hb : q.birthday with
    | none =>
      refine ⟨rest, ?_⟩
      simp only [get_upcoming_birthdays, hb]
      exact hrest
    | some b =>
      obtain ⟨d, hd, hnf⟩ := h q (List.mem_cons_self q qs) b hb
      have hv := parseBirthday_dateValid b.value d hd
      obtain ⟨occ, hocc⟩ := occurrence_total d today hv hnf
      by_cases hw : 0 ≤ diffDays occ today ∧ diffDays occ today ≤ (days : Int)
      · refine ⟨(q.name, formatDate (weekendShift occ)) :: rest, ?_⟩
        simp only [get_upcoming_birthdays, hb, hd, hocc, hrest, if_pos hw]
      · refine ⟨rest, ?_⟩
        simp only [get_upcoming_birthdays, hb, hd, hocc, hrest, if_neg hw]

/-- C1 witness: today = 10.06.2024, window 7; "Ann" (birthday 12.06) is in
the result exactly per the window bound, "Bob" (no birthday) never is. -/
theorem upcoming_window_iff_witness :
    (∃ d occ, dateObj ⟨"12.06.1990"⟩ = some d ∧
      occurrence d ⟨2024, 6, 10⟩ = some occ ∧
      ("Ann" ∈ ([("Ann", "12.06.2024")] : List (String × String)).map Prod.fst ↔
        (0 ≤ diffDays occ ⟨2024, 6, 10⟩ ∧
          diffDays occ ⟨2024, 6, 10⟩ ≤ ((7 : Nat) : Int)))) ∧
    "Bob" ∉ ([("Ann", "12.06.2024")] : List (String × String)).map Prod.fst := by
  have h1 := upcoming_window_iff
    [⟨"Ann", [], some ⟨"12.06.1990"⟩⟩, ⟨"Bob", [], none⟩] ⟨2024, 6, 10⟩ 7
    [("Ann", "12.06.2024")] ⟨"Ann", [], some ⟨"12.06.1990"⟩⟩ (by decide) rfl
    (by simp)
  have h2 := upcoming_window_iff
    [⟨"Ann", [], some ⟨"12.06.1990"⟩⟩, ⟨"Bob", [], none⟩] ⟨2024, 6, 10⟩ 7
    [("Ann", "12.06.2024")] ⟨"Bob", [], none⟩ (by decide) rfl (by simp)
  exact ⟨h1.1 ⟨"12.06.1990"⟩ rfl, h2.2 rfl⟩

/-- C2 witness: with today = 10.06.2024, a birthday occurring on Saturday
15.06.2024 yields congratulation date "17.06.2024" (the spec's example);
with today = 09.06.2024 the same Saturday occurrence (6 days out) is still
reported as "17.06.2024" even though the shifted date is 8 days out —
outside the window. -/
theorem upcoming_weekend_shift_witness :
    ("Alex", "17.06.2024") ∈ ([("Alex", "17.06.2024")] : List (String × String)) ∧
    get_upcoming_birthdays [⟨"Alex", [], some ⟨"15.06.1990"⟩⟩] ⟨2024, 6, 10⟩ 7 =
      Except.ok [("Alex", "17.06.2024")] ∧
    (get_upcoming_birthdays [⟨"Alex", [], some ⟨"15.06.1990"⟩⟩] ⟨2024, 6, 9⟩ 7 =
        Except.ok [("Alex", "17.06.2024")] ∧
      7 < diffDays ⟨2024, 6, 17⟩ ⟨2024, 6, 9⟩) := by
  refine ⟨?_, rfl, rfl, by decide⟩
  exact upcoming_weekend_shift [⟨"Alex", [], some ⟨"15.06.1990"⟩⟩]
    ⟨2024, 6, 10⟩ 7 [("Alex", "17.06.2024")] ⟨"Alex", [], some ⟨"15.06.1990"⟩⟩
    ⟨"15.06.1990"⟩ ⟨1990, 6, 15⟩ ⟨2024, 6, 15⟩ rfl (by simp) rfl rfl rfl
    (by decide)

/-- C3 counterexample: the birthday "29.02.2020" is validly constructed,
yet with today = 10.06.2023 (a non-leap year) `get_upcoming_birthdays`
raises — `date.replace(year=2023)` has no 29 February. -/
theorem upcoming_feb29_raises :
    birthdayValid "29.02.2020" = true ∧
    get_upcoming_birthdays [⟨"Ann", [], some ⟨"29.02.2020"⟩⟩] ⟨2023, 6, 10⟩ 7 =
      Except.error "day is out of range for month" := by
  constructor
  · rfl
  · rfl

/-- C3 witness. -/
theorem upcoming_total_no_feb29_witness :
    ∃ res, get_upcoming_birthdays [⟨"Ann", [], some ⟨"12.06.1990"⟩⟩]
      ⟨2023, 6, 10⟩ 7 = Except.ok res := by
  apply upcoming_total_no_feb29
  intro r hr b hb
  rw [List.mem_singleton] at hr
  subst hr
  injection hb with hbe
  subst hbe
  exact ⟨⟨1990, 6, 12⟩, rfl, by decide⟩
